import Mathlib

/-!
Verification development for the realtime voice-assistant subsystem of a
portfolio web application.  The definitions below are a shallow embedding of
the VoiceAssistant component: the base64 codec (decode and encode wrapping the
platform atob and btoa), PCM audio decoding (decodeAudioData), the playback
scheduling discipline around the nextStartTime cursor and the source set, the
microphone capture path (the onaudioprocess handler), the tool-call
acknowledgement loop, and the session lifecycle (startSession and cleanup).
Byte buffers and binary strings are modelled as lists of natural-number code
units; audio sample values and timeline instants are modelled as rationals,
which is exact for every operation the code performs.
-/

namespace VoiceAssistant

/-! ## Playback scheduler

The component keeps a mutable cursor nextStartTime and a set of active
AudioBufferSourceNode handles.  On an audio fragment the handler runs
  nextStartTime = max(nextStartTime, ctx.currentTime);
  source.start(nextStartTime); nextStartTime += buffer.duration;
  sources.add(source)
and on an interrupted signal it stops every source, clears the set and resets
the cursor to 0.  Sched models that state; schedule models one fragment being
scheduled (the serialized execution of the lines above); interrupt models the
interrupted branch. -/

structure Sched where
  cursor : ℚ
  active : List Nat
deriving Repr, DecidableEq

/-- One fragment with handle i and duration d scheduled at device clock clk:
start time is max of cursor and clock, the cursor advances past the segment,
and the handle joins the active set.  Returns the new state and the start. -/
def schedule (s : Sched) (i : Nat) (d clk : ℚ) : Sched × ℚ :=
  let st := max s.cursor clk
  ({ cursor := st + d, active := s.active ++ [i] }, st)

/-- Interrupted branch: stop every active source, clear the set, cursor 0. -/
def interrupt (_s : Sched) : Sched :=
  { cursor := 0, active := [] }

/-- Back-to-back run of fragments (handle, duration, device clock), returning
the list of (start time, duration) pairs in schedule order. -/
def scheduleRun (s : Sched) : List (Nat × ℚ × ℚ) → List (ℚ × ℚ)
  | [] => []
  | (i, d, clk) :: rest =>
      ((schedule s i d clk).2, d) :: scheduleRun (schedule s i d clk).1 rest

/-- The device clock stays at or below the running cursor throughout a run. -/
def clocksOk (cur : ℚ) : List (Nat × ℚ × ℚ) → Bool
  | [] => true
  | (_, d, clk) :: rest => decide (clk ≤ cur) && clocksOk (max cur clk + d) rest

lemma scheduleRun_gapless (segs : List (Nat × ℚ × ℚ)) :
    ∀ s : Sched, clocksOk s.cursor segs = true →
      List.Chain' (fun a b => b.1 = a.1 + a.2) (scheduleRun s segs) ∧
      ∀ x, (scheduleRun s segs).head? = some x → x.1 = s.cursor := by
  induction segs with
  | nil =>
      intro s _
      exact ⟨List.chain'_nil, by intro x hx; simp [scheduleRun] at hx⟩
  | cons seg rest ih =>
      intro s h
      obtain ⟨i, d, clk⟩ := seg
      simp only [clocksOk, Bool.and_eq_true, decide_eq_true_eq] at h
      obtain ⟨hclk, hrest⟩ := h
      have hst : max s.cursor clk = s.cursor := max_eq_left hclk
      have hcur1 : (schedule s i d clk).1.cursor = max s.cursor clk + d := rfl
      have ihh := ih (schedule s i d clk).1 (by rw [hcur1]; exact hrest)
      constructor
      · rw [scheduleRun]
        rw [List.chain'_cons']
        refine ⟨?_, ihh.1⟩
        intro b hb
        have := ihh.2 b hb
        rw [this, hcur1]
        rfl
      · intro x hx
        rw [scheduleRun] at hx
        simp only [List.head?_cons, Option.some.injEq] at hx
        rw [← hx]
        simpa [schedule] using hst.symm

/-- C1: scheduling a fragment starts it at max(cursor, device clock) and
advances the cursor to start plus duration; with nonnegative duration the
cursor never moves backward; when the clock does not exceed the cursor the
start equals the previous cursor; and along any back-to-back run in which the
clock never exceeds the running cursor, each start equals the previous start
plus the previous duration (gapless). -/
theorem scheduler_gapless_monotone (s : Sched) (i : Nat) (d clk : ℚ)
    (segs : List (Nat × ℚ × ℚ)) :
    (schedule s i d clk).2 = max s.cursor clk ∧
    (schedule s i d clk).1.cursor = (schedule s i d clk).2 + d ∧
    (0 ≤ d → s.cursor ≤ (schedule s i d clk).1.cursor) ∧
    (clk ≤ s.cursor → (schedule s i d clk).2 = s.cursor) ∧
    (schedule s i d clk).1.active = s.active ++ [i] ∧
    (clocksOk s.cursor segs = true →
      List.Chain' (fun a b => b.1 = a.1 + a.2) (scheduleRun s segs)) := by
  refine ⟨rfl, rfl, ?_, ?_, rfl, ?_⟩
  · intro hd
    have h1 : s.cursor ≤ max s.cursor clk := le_max_left _ _
    have h2 : max s.cursor clk ≤ max s.cursor clk + d := le_add_of_nonneg_right hd
    exact le_trans h1 h2
  · intro h
    simpa [schedule] using max_eq_left h
  · intro h
    exact (scheduleRun_gapless segs s h).1

theorem scheduler_gapless_monotone_witness :
    (schedule ⟨0, []⟩ 1 1 0).2 = max (0 : ℚ) 0 ∧
    (schedule ⟨0, []⟩ 1 1 0).1.cursor = (schedule ⟨0, []⟩ 1 1 0).2 + 1 ∧
    (0 ≤ (1 : ℚ) → (0 : ℚ) ≤ (schedule ⟨0, []⟩ 1 1 0).1.cursor) ∧
    ((0 : ℚ) ≤ 0 → (schedule ⟨0, []⟩ 1 1 0).2 = 0) ∧
    (schedule ⟨0, []⟩ 1 1 0).1.active = [] ++ [1] ∧
    (clocksOk 0 [(1, 1, 0), (2, (1 : ℚ) / 2, 0)] = true →
      List.Chain' (fun a b => b.1 = a.1 + a.2)
        (scheduleRun ⟨0, []⟩ [(1, 1, 0), (2, (1 : ℚ) / 2, 0)])) :=
  scheduler_gapless_monotone ⟨0, []⟩ 1 1 0 [(1, 1, 0), (2, (1 : ℚ) / 2, 0)]

/-- C2: the interrupted branch leaves the active set empty and the cursor at
zero, from any state, in particular it is a no-op-safe operation on a state
with no active segments (it is idempotent); and a fragment scheduled after an
interruption starts from cursor 0 again: its start is max(0, clock), which is
the device clock itself whenever the clock is nonnegative. -/
theorem interrupt_clears_and_resets (s : Sched) (i : Nat) (d clk : ℚ) :
    (interrupt s).active = [] ∧
    (interrupt s).cursor = 0 ∧
    interrupt (interrupt s) = interrupt s ∧
    (schedule (interrupt s) i d clk).2 = max 0 clk ∧
    (0 ≤ clk → (schedule (interrupt s) i d clk).2 = clk) := by
  refine ⟨rfl, rfl, rfl, rfl, ?_⟩
  intro h
  simpa [schedule, interrupt] using max_eq_right h

theorem interrupt_clears_and_resets_witness :
    (interrupt ⟨5, [1, 2]⟩).active = [] ∧
    (interrupt ⟨5, [1, 2]⟩).cursor = 0 ∧
    interrupt (interrupt ⟨5, [1, 2]⟩) = interrupt ⟨5, [1, 2]⟩ ∧
    (schedule (interrupt ⟨5, [1, 2]⟩) 3 2 7).2 = max 0 7 ∧
    ((0 : ℚ) ≤ 7 → (schedule (interrupt ⟨5, [1, 2]⟩) 3 2 7).2 = 7) :=
  interrupt_clears_and_resets ⟨5, [1, 2]⟩ 3 2 7

/-! ## Tool-call acknowledgement

On a toolCall message the handler iterates over message.toolCall.functionCalls
and for each call fc first fires the host callback onCommand(fc.name, fc.args)
and then sends a tool response with the same id and name and the constant
response result "ok".  Neither step inspects whether fc.name is one of the
declared commands, and the response does not depend on what the host callback
does with the dispatch. -/

structure FunctionCall where
  id : String
  name : String
  args : String
deriving Repr, DecidableEq

structure ToolResponse where
  id : String
  name : String
  result : String
deriving Repr, DecidableEq

/-- The three declared tool names in the session configuration. -/
def knownCommands : List String := ["navigateTo", "toggleTheme", "openAdmin"]

/-- Responses produced by the toolCall branch, in order of the calls. -/
def toolCallResponses (calls : List FunctionCall) : List ToolResponse :=
  calls.map fun fc => { id := fc.id, name := fc.name, result := "ok" }

/-- Dispatches forwarded to the host callback, in order of the calls. -/
def dispatchLog (calls : List FunctionCall) : List (String × String) :=
  calls.map fun fc => (fc.name, fc.args)

/-- C3: every tool invocation in a toolCall message produces exactly one
acknowledgement, acknowledgements are correlated positionally by identifier
(the list of response ids equals the list of call ids), every acknowledgement
carries the constant result "ok", and an invocation whose command name is not
among the declared commands is acknowledged all the same. -/
theorem toolcall_ack_exactly_one (calls : List FunctionCall) :
    (toolCallResponses calls).length = calls.length ∧
    (toolCallResponses calls).map ToolResponse.id = calls.map FunctionCall.id ∧
    (∀ r ∈ toolCallResponses calls, r.result = "ok") ∧
    (∀ fc ∈ calls, fc.name ∉ knownCommands →
      ToolResponse.mk fc.id fc.name "ok" ∈ toolCallResponses calls) := by
  refine ⟨by simp [toolCallResponses], by simp [toolCallResponses], ?_, ?_⟩
  · intro r hr
    simp only [toolCallResponses, List.mem_map] at hr
    obtain ⟨fc, _, hfc⟩ := hr
    rw [← hfc]
  · intro fc hfc _
    simp only [toolCallResponses, List.mem_map]
    exact ⟨fc, hfc, rfl⟩

theorem toolcall_ack_exactly_one_witness :
    (toolCallResponses [⟨"7", "unknownCmd", "x"⟩]).length =
      [(⟨"7", "unknownCmd", "x"⟩ : FunctionCall)].length ∧
    (toolCallResponses [⟨"7", "unknownCmd", "x"⟩]).map ToolResponse.id =
      [(⟨"7", "unknownCmd", "x"⟩ : FunctionCall)].map FunctionCall.id ∧
    (∀ r ∈ toolCallResponses [⟨"7", "unknownCmd", "x"⟩], r.result = "ok") ∧
    (∀ fc ∈ [(⟨"7", "unknownCmd", "x"⟩ : FunctionCall)], fc.name ∉ knownCommands →
      ToolResponse.mk fc.id fc.name "ok" ∈ toolCallResponses [⟨"7", "unknownCmd", "x"⟩]) :=
  toolcall_ack_exactly_one [⟨"7", "unknownCmd", "x"⟩]

/-! ## Base64 codec

The component defines
  decode(base64) = Uint8Array of charCodeAt over atob(base64)
  encode(bytes)  = btoa(String.fromCharCode over bytes)
so on code-unit lists decode is exactly the platform atob (forgiving-base64)
and encode is exactly the platform btoa.  Both are modelled here on lists of
natural-number code units: atob strips ASCII whitespace, strips up to two
trailing padding signs when the length is a multiple of four, rejects a
length congruent to 1 mod 4 and any character outside the alphabet, and drops
the leftover bits of a trailing group; btoa emits the canonical padded
encoding. -/

/-- Code unit of the base64 alphabet at index n (capital letters, small
letters, digits, plus, slash). -/
def b64Char (n : Nat) : Nat :=
  if n < 26 then 65 + n
  else if n < 52 then 71 + n
  else if n < 62 then n - 4
  else if n = 62 then 43
  else 47

/-- Index of a code unit in the base64 alphabet, none when outside it. -/
def b64Index (c : Nat) : Option Nat :=
  if 65 ≤ c ∧ c ≤ 90 then some (c - 65)
  else if 97 ≤ c ∧ c ≤ 122 then some (c - 71)
  else if 48 ≤ c ∧ c ≤ 57 then some (c + 4)
  else if c = 43 then some 62
  else if c = 47 then some 63
  else none

/-- ASCII whitespace, removed by forgiving-base64 before decoding. -/
def isB64Ws (c : Nat) : Bool :=
  c = 9 || c = 10 || c = 12 || c = 13 || c = 32

/-- Six-bit groups of a byte sequence, three bytes to four sextets, with the
shorter trailing groups of a length not divisible by three. -/
def toSextets : List Nat → List Nat
  | [] => []
  | [a] => [a / 4, a % 4 * 16]
  | [a, b] => [a / 4, a % 4 * 16 + b / 16, b % 16 * 4]
  | a :: b :: c :: rest =>
      a / 4 :: (a % 4 * 16 + b / 16) :: (b % 16 * 4 + c / 64) :: c % 64 ::
        toSextets rest

/-- Number of padding signs btoa appends for a byte count n. -/
def padLen (n : Nat) : Nat := (3 - n % 3) % 3

/-- The platform btoa on a byte list: alphabet characters of the sextets
followed by the canonical padding. -/
def btoa (b : List Nat) : List Nat :=
  (toSextets b).map b64Char ++ List.replicate (padLen b.length) 61

/-- Strip one or two trailing padding signs (code unit 61). -/
def stripPad (s : List Nat) : List Nat :=
  if s.getLast? = some 61 then
    if s.dropLast.getLast? = some 61 then s.dropLast.dropLast else s.dropLast
  else s

/-- Reassemble bytes from sextets: four sextets to three bytes, a trailing
pair or triple to one or two bytes with the leftover bits discarded, and a
single trailing sextet impossible (rejected by the length check). -/
def sextetsToBytes : List Nat → Option (List Nat)
  | [] => some []
  | [_] => none
  | [a, b] => some [a * 4 + b / 16]
  | [a, b, c] => some [a * 4 + b / 16, b % 16 * 16 + c / 4]
  | a :: b :: c :: d :: rest =>
      match sextetsToBytes rest with
      | none => none
      | some l =>
          some ((a * 4 + b / 16) :: (b % 16 * 16 + c / 4) :: (c % 4 * 64 + d) :: l)

/-- Core of atob after whitespace removal and padding stripping: reject a
length congruent to 1 mod 4, map every character through the alphabet
(failing outside it), and reassemble the bytes. -/
def atobNoPad (u : List Nat) : Option (List Nat) :=
  if u.length % 4 = 1 then none
  else
    match u.mapM b64Index with
    | none => none
    | some sx => sextetsToBytes sx

/-- Padding stripping step of atob: only applies when the length after
whitespace removal is a multiple of four. -/
def atobStripped (t : List Nat) : Option (List Nat) :=
  atobNoPad (if t.length % 4 = 0 then stripPad t else t)

/-- The platform atob (forgiving-base64) on a code-unit list. -/
def atob (s : List Nat) : Option (List Nat) :=
  atobStripped (s.filter fun c => !isB64Ws c)

/-- The component decode: atob followed by charCodeAt on every character of
the binary string, which is the identity on the code-unit representation. -/
def decode (s : List Nat) : Option (List Nat) := atob s

/-- The component encode: String.fromCharCode over the bytes followed by
btoa, which is btoa itself on the code-unit representation. -/
def encode (b : List Nat) : List Nat := btoa b

lemma b64Char_not_ws (n : Nat) : isB64Ws (b64Char n) = false := by
  unfold b64Char isB64Ws
  split_ifs <;> simp <;> omega

lemma b64Char_ne_pad (n : Nat) : b64Char n ≠ 61 := by
  unfold b64Char
  split_ifs <;> omega

lemma b64Index_b64Char (n : Nat) (h : n < 64) : b64Index (b64Char n) = some n := by
  revert h
  revert n
  decide

lemma toSextets_lt (b : List Nat) (hb : ∀ y ∈ b, y < 256) :
    ∀ x ∈ toSextets b, x < 64 := by
  induction b using toSextets.induct with
  | case1 => intro x hx; simp [toSextets] at hx
  | case2 a =>
      intro x hx
      have ha := hb a (by simp)
      simp only [toSextets, List.mem_cons, List.not_mem_nil, or_false] at hx
      rcases hx with h | h <;> omega
  | case3 a c =>
      intro x hx
      have ha := hb a (by simp)
      have hc := hb c (by simp)
      simp only [toSextets, List.mem_cons, List.not_mem_nil, or_false] at hx
      rcases hx with h | h | h <;> omega
  | case4 a c e rest ih =>
      intro x hx
      have ha := hb a (by simp)
      have hc := hb c (by simp)
      have he := hb e (by simp)
      simp only [toSextets, List.mem_cons] at hx
      rcases hx with h | h | h | h | h
      · omega
      · omega
      · omega
      · omega
      · exact ih (fun y hy => hb y (by simp [hy])) x h

lemma filter_btoa (b : List Nat) :
    (btoa b).filter (fun c => !isB64Ws c) = btoa b := by
  rw [List.filter_eq_self]
  intro c hc
  rw [btoa] at hc
  rcases List.mem_append.mp hc with h | h
  · obtain ⟨n, _, hn⟩ := List.mem_map.mp h
    rw [← hn]
    simp [b64Char_not_ws]
  · have : c = 61 := List.eq_of_mem_replicate h
    subst this
    decide

lemma toSextets_length_padLen (b : List Nat) :
    ((toSextets b).length + padLen b.length) % 4 = 0 := by
  induction b using toSextets.induct with
  | case1 => simp [toSextets, padLen]
  | case2 a => simp [toSextets, padLen]
  | case3 a c => simp [toSextets, padLen]
  | case4 a c e rest ih =>
      simp only [toSextets, List.length_cons]
      have hp : padLen (rest.length + 1 + 1 + 1) = padLen rest.length := by
        unfold padLen
        omega
      rw [hp]
      omega

lemma btoa_length_mod (b : List Nat) : (btoa b).length % 4 = 0 := by
  rw [btoa]
  rw [List.length_append, List.length_map, List.length_replicate]
  have h := toSextets_length_padLen b
  have hlt : padLen b.length < 3 := by unfold padLen; omega
  omega

lemma getLast?_ne_pad (m : List Nat) (h : ∀ c ∈ m, c ≠ 61) :
    m.getLast? ≠ some 61 := by
  intro heq
  cases m with
  | nil => simp at heq
  | cons a t =>
      have hmem : 61 ∈ a :: t := by
        have := List.getLast?_eq_getLast (a :: t) (by simp)
        rw [this] at heq
        have : (a :: t).getLast (by simp) = 61 := by
          injection heq
        rw [← this]
        exact List.getLast_mem _
      exact h 61 hmem rfl

lemma stripPad_append (m : List Nat) (k : Nat) (hm : ∀ c ∈ m, c ≠ 61)
    (hk : k ≤ 2) : stripPad (m ++ List.replicate k 61) = m := by
  interval_cases k
  · rw [List.replicate_zero, List.append_nil, stripPad]
    rw [if_neg (getLast?_ne_pad m hm)]
  · have h1 : m ++ List.replicate 1 61 = m ++ [61] := rfl
    rw [h1, stripPad]
    rw [List.getLast?_concat, if_pos rfl, List.dropLast_concat]
    rw [if_neg (getLast?_ne_pad m hm)]
  · have h2 : m ++ List.replicate 2 61 = (m ++ [61]) ++ [61] := by
      simp [List.replicate_succ]
    rw [h2, stripPad]
    rw [List.getLast?_concat, if_pos rfl, List.dropLast_concat]
    rw [List.getLast?_concat, if_pos rfl, List.dropLast_concat]

lemma mapM_b64Index_map_b64Char (sx : List Nat) (h : ∀ x ∈ sx, x < 64) :
    (sx.map b64Char).mapM b64Index = some sx := by
  induction sx with
  | nil => rfl
  | cons a t ih =>
      rw [List.map_cons, List.mapM_cons]
      rw [b64Index_b64Char a (h a (by simp))]
      rw [ih fun x hx => h x (by simp [hx])]
      rfl

lemma sextetsToBytes_toSextets (b : List Nat) (hb : ∀ y ∈ b, y < 256) :
    sextetsToBytes (toSextets b) = some b := by
  induction b using toSextets.induct with
  | case1 => rfl
  | case2 a =>
      have ha := hb a (by simp)
      simp [toSextets, sextetsToBytes]
      omega
  | case3 a c =>
      have ha := hb a (by simp)
      have hc := hb c (by simp)
      simp [toSextets, sextetsToBytes]
      omega
  | case4 a c e rest ih =>
      have ha := hb a (by simp)
      have hc := hb c (by simp)
      have he := hb e (by simp)
      have ihh := ih fun y hy => hb y (by simp [hy])
      simp [toSextets, sextetsToBytes, ihh]
      omega

lemma toSextets_length_mod (b : List Nat) : (toSextets b).length % 4 ≠ 1 := by
  induction b using toSextets.induct with
  | case1 => simp [toSextets]
  | case2 a => simp [toSextets]
  | case3 a c => simp [toSextets]
  | case4 a c e rest ih =>
      simp only [toSextets, List.length_cons]
      omega

/-- Round trip at the byte level: atob over btoa recovers every byte list. -/
lemma atob_btoa (b : List Nat) (hb : ∀ y ∈ b, y < 256) :
    atob (btoa b) = some b := by
  have hfilter := filter_btoa b
  have hmod := btoa_length_mod b
  have hstrip : stripPad (btoa b) = (toSextets b).map b64Char := by
    rw [btoa]
    refine stripPad_append _ _ ?_ ?_
    · intro c hc
      obtain ⟨n, _, hn⟩ := List.mem_map.mp hc
      rw [← hn]
      exact b64Char_ne_pad n
    · unfold padLen; omega
  rw [atob, hfilter, atobStripped, if_pos hmod, hstrip, atobNoPad]
  have hlen : ((toSextets b).map b64Char).length % 4 ≠ 1 := by
    rw [List.length_map]
    exact toSextets_length_mod b
  rw [if_neg hlen]
  rw [mapM_b64Index_map_b64Char _ (toSextets_lt b hb)]
  exact sextetsToBytes_toSextets b hb

/-- C5 counterexample: the unpadded string QQ (code units 81, 81) is valid
base64 in the sense that decode accepts it, yet encoding the decoded bytes
yields the padded canonical form, not the original string, so the round trip
fails on it. -/
theorem roundtrip_fails_unpadded :
    decode [81, 81] = some [65] ∧
    encode [65] = [81, 81, 61, 61] ∧
    encode ((decode [81, 81]).getD []) ≠ [81, 81] := by
  refine ⟨by decide, by decide, by decide⟩

/-- C5 amended: the round trip encode over decode is the identity on every
canonical (padded) base64 string, that is on the range of encode: decoding
the encoding of any byte list recovers it exactly, hence re-encoding yields
the original string; and decode fails on malformed input, here a string
containing a character outside the base64 alphabet. -/
theorem decode_encode_roundtrip_canonical (b : List Nat)
    (hb : ∀ y ∈ b, y < 256) :
    decode (encode b) = some b ∧
    encode ((decode (encode b)).getD []) = encode b ∧
    decode [65, 33, 66, 67] = none := by
  have h := atob_btoa b hb
  refine ⟨h, ?_, by decide⟩
  simp only [decode, encode] at h ⊢
  rw [h]
  rfl

theorem decode_encode_roundtrip_canonical_witness :
    (∀ y ∈ [77, 97, 110], y < 256) ∧
    (decode (encode [77, 97, 110]) = some [77, 97, 110] ∧
      encode ((decode (encode [77, 97, 110])).getD []) = encode [77, 97, 110] ∧
      decode [65, 33, 66, 67] = none) :=
  ⟨by decide, decode_encode_roundtrip_canonical [77, 97, 110] (by decide)⟩

/-! ## PCM audio decoding

decodeAudioData reinterprets the byte buffer as an Int16Array (the platform
rejects an odd byte length with a range error), computes
frameCount = dataInt16.length / numChannels, creates an output buffer of
frameCount frames per channel (the platform truncates a fractional count and
rejects a zero frame count), and fills channel ch at frame i with
dataInt16[i * numChannels + ch] / 32768. -/

/-- Errors the platform throws on the paths decodeAudioData exercises. -/
inductive JsErr where
  | rangeErr
  | notSupportedErr
deriving Repr, DecidableEq

/-- Signed 16-bit value of a little-endian byte pair. -/
def int16OfPair (lo hi : Nat) : Int :=
  if lo + 256 * hi < 32768 then (lo + 256 * hi : Int)
  else (lo + 256 * hi : Int) - 65536

/-- Int16Array view of a byte list (little-endian pairs). -/
def bytesToInt16 : List Nat → List Int
  | lo :: hi :: rest => int16OfPair lo hi :: bytesToInt16 rest
  | _ => []

/-- The decodeAudioData numeric core: per-channel frame lists of normalized
samples, or the platform error on an odd byte length or an empty frame
count. -/
def decodeAudioData (bytes : List Nat) (numChannels : Nat) :
    Except JsErr (List (List ℚ)) :=
  if bytes.length % 2 ≠ 0 then .error .rangeErr
  else if (bytesToInt16 bytes).length / numChannels = 0 then
    .error .notSupportedErr
  else .ok ((List.range numChannels).map fun ch =>
    (List.range ((bytesToInt16 bytes).length / numChannels)).map fun i =>
      ((bytesToInt16 bytes).getD (i * numChannels + ch) 0 : ℚ) / 32768)

lemma bytesToInt16_length (bytes : List Nat) :
    (bytesToInt16 bytes).length = bytes.length / 2 := by
  induction bytes using bytesToInt16.induct with
  | case1 lo hi rest ih =>
      simp only [bytesToInt16, List.length_cons, ih]
      omega
  | case2 b h =>
      cases b with
      | nil => rfl
      | cons a t =>
          cases t with
          | nil =>
              have h0 : bytesToInt16 [a] = [] := rfl
              simp [h0]
          | cons c u => exact absurd rfl (h a c u)

lemma int16OfPair_bounds (lo hi : Nat) (hlo : lo < 256) (hhi : hi < 256) :
    -32768 ≤ int16OfPair lo hi ∧ int16OfPair lo hi ≤ 32767 := by
  unfold int16OfPair
  split_ifs <;> omega

lemma bytesToInt16_mem_bounds (bytes : List Nat) (hb : ∀ y ∈ bytes, y < 256) :
    ∀ x ∈ bytesToInt16 bytes, -32768 ≤ x ∧ x ≤ 32767 := by
  induction bytes using bytesToInt16.induct with
  | case1 lo hi rest ih =>
      intro x hx
      simp only [bytesToInt16, List.mem_cons] at hx
      rcases hx with h | h
      · rw [h]
        exact int16OfPair_bounds lo hi (hb lo (by simp)) (hb hi (by simp))
      · exact ih (fun y hy => hb y (by simp [hy])) x h
  | case2 b h =>
      intro x hx
      cases b with
      | nil => simp [bytesToInt16] at hx
      | cons a t =>
          cases t with
          | nil => simp [bytesToInt16] at hx
          | cons c u => exact absurd rfl (h a c u)

lemma getD_map_range {α : Type} (f : Nat → α) (n i : Nat) (d : α)
    (h : i < n) : ((List.range n).map f).getD i d = f i := by
  rw [List.getD_eq_getElem _ _ (by simpa using h)]
  rw [List.getElem_map, List.getElem_range]

lemma int16_div_bounds (x : Int) (h1 : -32768 ≤ x) (h2 : x ≤ 32767) :
    -1 ≤ (x : ℚ) / 32768 ∧ (x : ℚ) / 32768 ≤ 1 := by
  have hx1 : (-32768 : ℚ) ≤ (x : ℚ) := by exact_mod_cast h1
  have hx2 : (x : ℚ) ≤ 32767 := by exact_mod_cast h2
  constructor
  · rw [le_div_iff₀ (by norm_num : (0 : ℚ) < 32768)]
    linarith
  · rw [div_le_iff₀ (by norm_num : (0 : ℚ) < 32768)]
    linarith

/-- C4 counterexample: a byte buffer of length six with two channels, a byte
length that is not a multiple of channelCount times two, is not rejected:
decodeAudioData succeeds (with the fractional frame count truncated to one
frame per channel), so no format failure occurs. -/
theorem decodeAudioData_no_format_error :
    decodeAudioData [0, 0, 0, 0, 0, 0] 2 = .ok [[0], [0]] ∧
    ¬ (2 * 2 ∣ (6 : Nat)) := by
  refine ⟨?_, by decide⟩
  simp [decodeAudioData, bytesToInt16, int16OfPair, List.range_succ]

/-- C4 amended: on a byte buffer whose length is a nonzero multiple of
channelCount times two, decodeAudioData succeeds and produces channelCount
channels with n / c frames each (n the sample count, c the channel count),
every output sample being the corresponding signed 16-bit little-endian
value divided by 32768 and lying in the closed interval from -1 to 1; the
code performs no format check, so a mismatched byte length is never rejected
with a format error (an odd length raises the platform range error and a
buffer with fewer than c samples raises the platform buffer-creation error
instead). -/
theorem decodeAudioData_frames_range (bytes : List Nat) (c : Nat)
    (hb : ∀ y ∈ bytes, y < 256) (hc : 0 < c)
    (hdvd : 2 * c ∣ bytes.length) (hne : bytes.length ≠ 0) :
    ∃ chans, decodeAudioData bytes c = .ok chans ∧
      chans.length = c ∧
      (∀ ch ∈ chans, ch.length = bytes.length / 2 / c) ∧
      (∀ ch ∈ chans, ∀ v ∈ ch, -1 ≤ v ∧ v ≤ 1) ∧
      (∀ chIdx frame, chIdx < c → frame < bytes.length / 2 / c →
        (chans.getD chIdx []).getD frame 0 =
          ((bytesToInt16 bytes).getD (frame * c + chIdx) 0 : ℚ) / 32768) := by
  obtain ⟨k, hk⟩ := hdvd
  have hm : bytes.length = 2 * (c * k) := by rw [hk, Nat.mul_assoc]
  have hlen2 : bytes.length % 2 = 0 := by omega
  have hkne : k ≠ 0 := by
    intro h0
    rw [h0, Nat.mul_zero] at hm
    omega
  have h2 : bytes.length / 2 = c * k := by omega
  have hfc : (bytesToInt16 bytes).length / c ≠ 0 := by
    rw [bytesToInt16_length, h2, Nat.mul_div_cancel_left k hc]
    exact hkne
  refine ⟨(List.range c).map fun ch =>
      (List.range ((bytesToInt16 bytes).length / c)).map fun i =>
        ((bytesToInt16 bytes).getD (i * c + ch) 0 : ℚ) / 32768,
    ?_, ?_, ?_, ?_, ?_⟩
  · rw [decodeAudioData]
    rw [if_neg (by omega : ¬ bytes.length % 2 ≠ 0)]
    rw [if_neg hfc]
  · simp
  · intro ch hch
    simp only [List.mem_map] at hch
    obtain ⟨j, _, hj⟩ := hch
    rw [← hj, List.length_map, List.length_range, bytesToInt16_length]
  · intro ch hch v hv
    simp only [List.mem_map] at hch
    obtain ⟨j, _, hj⟩ := hch
    rw [← hj] at hv
    simp only [List.mem_map] at hv
    obtain ⟨i, _, hi⟩ := hv
    rw [← hi]
    have hbnd : -32768 ≤ (bytesToInt16 bytes).getD (i * c + j) 0 ∧
        (bytesToInt16 bytes).getD (i * c + j) 0 ≤ 32767 := by
      rcases Nat.lt_or_ge (i * c + j) (bytesToInt16 bytes).length with hlt | hge
      · rw [List.getD_eq_getElem _ _ hlt]
        exact bytesToInt16_mem_bounds bytes hb _ (List.getElem_mem hlt)
      · rw [List.getD_eq_default _ _ hge]
        constructor <;> norm_num
    exact int16_div_bounds _ hbnd.1 hbnd.2
  · intro chIdx frame hch hfr
    have hfrc : frame < (bytesToInt16 bytes).length / c := by
      rw [bytesToInt16_length]
      exact hfr
    rw [getD_map_range _ c chIdx [] hch]
    rw [getD_map_range _ _ frame 0 hfrc]

theorem decodeAudioData_frames_range_witness :
    (∀ y ∈ [0, 1, 254, 255], y < 256) ∧ 0 < 2 ∧
    (2 * 2 ∣ ([0, 1, 254, 255] : List Nat).length) ∧
    ([0, 1, 254, 255] : List Nat).length ≠ 0 ∧
    (∃ chans, decodeAudioData [0, 1, 254, 255] 2 = .ok chans ∧
      chans.length = 2 ∧
      (∀ ch ∈ chans, ch.length = ([0, 1, 254, 255] : List Nat).length / 2 / 2) ∧
      (∀ ch ∈ chans, ∀ v ∈ ch, -1 ≤ v ∧ v ≤ 1) ∧
      (∀ chIdx frame, chIdx < 2 →
        frame < ([0, 1, 254, 255] : List Nat).length / 2 / 2 →
        (chans.getD chIdx []).getD frame 0 =
          ((bytesToInt16 [0, 1, 254, 255]).getD (frame * 2 + chIdx) 0 : ℚ) /
            32768)) :=
  ⟨by decide, by decide, by decide, by decide,
    decodeAudioData_frames_range [0, 1, 254, 255] 2 (by decide) (by decide)
      (by decide) (by decide)⟩

/-! ## Microphone capture path

onopen builds a script processor with buffer size 4096, one input channel and
one output channel, so every onaudioprocess tick delivers exactly 4096 mono
samples.  The handler converts each float sample v by the Int16Array element
store int16[i] = v * 32768, which truncates toward zero and wraps modulo
2 to the 16, with no clamping, then sends the realtime message whose data is
the base64 encoding of the underlying bytes and whose mimeType is the fixed
string below. -/

/-- Buffer size passed to createScriptProcessor. -/
def captureBufferSize : Nat := 4096

/-- Input channel count passed to createScriptProcessor. -/
def captureChannels : Nat := 1

/-- Truncation toward zero, the number conversion of a typed-array store. -/
def truncQ (q : ℚ) : Int :=
  if 0 ≤ q then Int.floor q else Int.ceil q

/-- Wrap an integer into an unsigned 16-bit value. -/
def toUint16 (n : Int) : Nat := (n % 65536).toNat

/-- The unsigned 16-bit cell an Int16Array stores for a float sample v under
int16[i] = v * 32768. -/
def jsInt16Store (v : ℚ) : Nat := toUint16 (truncQ (v * 32768))

/-- The signed value of the stored 16-bit cell. -/
def jsInt16Value (v : ℚ) : Int :=
  if jsInt16Store v < 32768 then (jsInt16Store v : Int)
  else (jsInt16Store v : Int) - 65536

/-- Little-endian byte serialization of a list of unsigned 16-bit cells, as
Uint8Array over the Int16Array buffer. -/
def bytesOfWords : List Nat → List Nat
  | [] => []
  | u :: rest => u % 256 :: u / 256 :: bytesOfWords rest

/-- Byte image of a captured float frame. -/
def frameToBytes (frame : List ℚ) : List Nat :=
  bytesOfWords (frame.map jsInt16Store)

/-- An outbound realtime audio message. -/
structure RtAudioMessage where
  data : List Nat
  mimeType : String
deriving Repr, DecidableEq

/-- The onaudioprocess handler: encode the frame bytes and attach the fixed
mime type. -/
def onaudioprocess (frame : List ℚ) : RtAudioMessage :=
  { data := encode (frameToBytes frame), mimeType := "audio/pcm;rate=16000" }

lemma toUint16_lt (n : Int) : toUint16 n < 65536 := by
  unfold toUint16
  omega

lemma bytesOfWords_length (ws : List Nat) :
    (bytesOfWords ws).length = 2 * ws.length := by
  induction ws with
  | nil => rfl
  | cons u rest ih =>
      simp only [bytesOfWords, List.length_cons, ih]
      omega

lemma bytesOfWords_lt (ws : List Nat) (h : ∀ w ∈ ws, w < 65536) :
    ∀ y ∈ bytesOfWords ws, y < 256 := by
  induction ws with
  | nil => intro y hy; simp [bytesOfWords] at hy
  | cons u rest ih =>
      intro y hy
      have hu := h u (by simp)
      simp only [bytesOfWords, List.mem_cons] at hy
      rcases hy with h1 | h1 | h1
      · omega
      · omega
      · exact ih (fun w hw => h w (by simp [hw])) y h1

lemma frameToBytes_lt (frame : List ℚ) : ∀ y ∈ frameToBytes frame, y < 256 := by
  refine bytesOfWords_lt _ ?_
  intro w hw
  obtain ⟨v, _, hv⟩ := List.mem_map.mp hw
  rw [← hv]
  exact toUint16_lt _

/-- C9: a captured frame is delivered with exactly captureBufferSize = 4096
samples on captureChannels = 1 channel; the outbound realtime message carries
the fixed mime type audio/pcm;rate=16000, and its data field is precisely the
base64 encoding of the 16-bit PCM bytes of the frame: decoding it recovers
the 2 * 4096 PCM bytes exactly. -/
theorem capture_frame_message (frame : List ℚ)
    (h : frame.length = captureBufferSize) :
    (onaudioprocess frame).mimeType = "audio/pcm;rate=16000" ∧
    decode ((onaudioprocess frame).data) = some (frameToBytes frame) ∧
    (frameToBytes frame).length = 2 * 4096 ∧
    captureBufferSize = 4096 ∧ captureChannels = 1 := by
  refine ⟨rfl, ?_, ?_, rfl, rfl⟩
  · exact atob_btoa _ (frameToBytes_lt frame)
  · rw [frameToBytes, bytesOfWords_length, List.length_map, h]
    rfl

theorem capture_frame_message_witness :
    (List.replicate 4096 (0 : ℚ)).length = captureBufferSize ∧
    ((onaudioprocess (List.replicate 4096 (0 : ℚ))).mimeType =
        "audio/pcm;rate=16000" ∧
      decode ((onaudioprocess (List.replicate 4096 (0 : ℚ))).data) =
        some (frameToBytes (List.replicate 4096 (0 : ℚ))) ∧
      (frameToBytes (List.replicate 4096 (0 : ℚ))).length = 2 * 4096 ∧
      captureBufferSize = 4096 ∧ captureChannels = 1) :=
  ⟨by rw [List.length_replicate]; rfl,
    capture_frame_message _ (by rw [List.length_replicate]; rfl)⟩

/-- C10: the capture conversion multiplies by 32768 with no clamping.  For
every sample v with -1 ≤ v < 1 the stored signed value is exactly the
truncation of v * 32768, so it equals v * 32768 itself whenever that product
is integral; the full-scale sample v = 1 produces 32768, which wraps modulo
2 to the 16 into the signed value -32768. -/
theorem float_to_int16_no_clamp (v : ℚ) (h1 : -1 ≤ v) (h2 : v < 1) :
    jsInt16Value v = truncQ (v * 32768) ∧
    (∀ k : Int, v * 32768 = (k : ℚ) → jsInt16Value v = k) ∧
    truncQ ((1 : ℚ) * 32768) = 32768 ∧
    jsInt16Store 1 = 32768 ∧
    jsInt16Value 1 = -32768 := by
  have hlo : (-32768 : ℚ) ≤ v * 32768 := by nlinarith
  have hhi : v * 32768 < 32768 := by nlinarith
  have htr : -32768 ≤ truncQ (v * 32768) ∧ truncQ (v * 32768) ≤ 32767 := by
    unfold truncQ
    split_ifs with hpos
    · constructor
      · have : (0 : Int) ≤ Int.floor (v * 32768) := by
          rw [Int.le_floor]
          exact_mod_cast hpos
        omega
      · have hf : (Int.floor (v * 32768) : ℚ) ≤ v * 32768 := Int.floor_le _
        have : (Int.floor (v * 32768) : ℚ) < 32768 := lt_of_le_of_lt hf hhi
        have : Int.floor (v * 32768) < 32768 := by exact_mod_cast this
        omega
    · constructor
      · have hc : (-32768 : ℚ) ≤ (Int.ceil (v * 32768) : ℚ) :=
          le_trans hlo (Int.le_ceil _)
        have : (-32768 : Int) ≤ Int.ceil (v * 32768) := by exact_mod_cast hc
        omega
      · have : Int.ceil (v * 32768) ≤ 0 := by
          rw [Int.ceil_le]
          push_cast
          exact le_of_not_le hpos
        omega
  have hmain : jsInt16Value v = truncQ (v * 32768) := by
    unfold jsInt16Value jsInt16Store toUint16
    split_ifs <;> omega
  have hone : truncQ ((1 : ℚ) * 32768) = 32768 := by
    unfold truncQ
    rw [if_pos (by norm_num)]
    norm_num
  refine ⟨hmain, ?_, hone, ?_, ?_⟩
  · intro k hk
    rw [hmain, hk]
    unfold truncQ
    split_ifs with hpos
    · exact Int.floor_intCast k
    · exact Int.ceil_intCast k
  · rw [jsInt16Store, hone]
    rfl
  · rw [jsInt16Value]
    have hs : jsInt16Store 1 = 32768 := by rw [jsInt16Store, hone]; rfl
    rw [if_neg (by omega), hs]
    rfl

theorem float_to_int16_no_clamp_witness :
    (-1 : ℚ) ≤ 1 / 2 ∧ (1 : ℚ) / 2 < 1 ∧
    (jsInt16Value (1 / 2) = truncQ (1 / 2 * 32768) ∧
      (∀ k : Int, (1 : ℚ) / 2 * 32768 = (k : ℚ) → jsInt16Value (1 / 2) = k) ∧
      truncQ ((1 : ℚ) * 32768) = 32768 ∧
      jsInt16Store 1 = 32768 ∧
      jsInt16Value 1 = -32768) :=
  ⟨by norm_num, by norm_num,
    float_to_int16_no_clamp (1 / 2) (by norm_num) (by norm_num)⟩

/-! ## Session lifecycle

The component state consists of the session reference, the two React flags
isActive and isConnecting, the transcript string, the set of active playback
sources, the playback cursor nextStartTime, the script-processor hookup of
the microphone, the acquired getUserMedia microphone stream, and the lazily
created audio contexts.  cleanup closes the session reference if set, lowers
both flags, clears the transcript and stops and clears the playback sources;
it touches nothing else — in particular no call of track stop exists
anywhere in the component, so an acquired microphone stream stays live.
startSession raises isConnecting, ensures the audio contexts, then requests
the microphone; if that request fails the catch block runs cleanup with the
stream never acquired; if the request succeeds the stream is live from that
point on, and if the connect promise then rejects the catch block runs
cleanup, which leaves the live stream untouched (the onopen callback, which
starts capture, never fires on either failure path); on success onopen
lowers isConnecting, raises isActive and hooks up capture, and the awaited
session is stored. -/

structure AppState where
  sessionOpen : Bool
  isActive : Bool
  isConnecting : Bool
  transcript : String
  sources : List Nat
  cursor : ℚ
  captureStarted : Bool
  micStreamLive : Bool
  audioCtxInit : Bool
deriving Repr, DecidableEq

/-- The cleanup function of the component. -/
def cleanup (s : AppState) : AppState :=
  { s with
    sessionOpen := false
    isActive := false
    isConnecting := false
    transcript := ""
    sources := [] }

/-- startSession with the outcome of the microphone request and of the
connection attempt supplied as oracles.  On the connect-failure path the
microphone stream has already been acquired when the catch block runs
cleanup. -/
def startSession (micOk connectOk : Bool) (s : AppState) : AppState :=
  if micOk = false then
    cleanup { s with isConnecting := true, audioCtxInit := true }
  else if connectOk = false then
    cleanup { s with
      isConnecting := true, audioCtxInit := true, micStreamLive := true }
  else
    { s with
      isConnecting := false
      isActive := true
      captureStarted := true
      sessionOpen := true
      audioCtxInit := true
      micStreamLive := true }

/-- The Idle lifecycle state: neither active nor connecting. -/
def isIdle (s : AppState) : Bool := !s.isActive && !s.isConnecting

/-- C6 counterexample: from a pristine Idle state, a failure of the
connection attempt after the microphone was successfully acquired returns to
Idle with no session held, but leaves the acquired microphone stream live:
cleanup contains no track stop, so the capture device remains held with no
session — exactly the partial state the claim asserts cannot persist. -/
theorem startSession_connect_failure_leaks_mic :
    isIdle (startSession true false
      (AppState.mk false false false "" [] 0 false false false)) = true ∧
    (startSession true false
      (AppState.mk false false false "" [] 0 false false false)).sessionOpen =
        false ∧
    (startSession true false
      (AppState.mk false false false "" [] 0 false false false)).micStreamLive =
        true :=
  ⟨rfl, rfl, rfl⟩

/-- C6 amended: a failed open always lands back in Idle through cleanup,
with capture never started and no session resource held; after a microphone
denial the stream was never acquired, so that path leaves no partial state;
but when the microphone was acquired and the connection attempt then fails,
cleanup leaves the acquired microphone stream live, so partial state does
persist on the connect-failure path. -/
theorem startSession_failure_paths (s : AppState) (micOk connectOk : Bool)
    (hcap : s.captureStarted = false) (_hsess : s.sessionOpen = false)
    (hfail : micOk = false ∨ connectOk = false) :
    isIdle (startSession micOk connectOk s) = true ∧
    (startSession micOk connectOk s).captureStarted = false ∧
    (startSession micOk connectOk s).sessionOpen = false ∧
    (micOk = false →
      startSession micOk connectOk s =
        cleanup { s with isConnecting := true, audioCtxInit := true } ∧
      (startSession micOk connectOk s).micStreamLive = s.micStreamLive) ∧
    (micOk = true → connectOk = false →
      startSession micOk connectOk s =
        cleanup { s with
          isConnecting := true, audioCtxInit := true,
          micStreamLive := true } ∧
      (startSession micOk connectOk s).micStreamLive = true) := by
  by_cases hm : micOk = false
  · have hgoal : startSession micOk connectOk s =
        cleanup { s with isConnecting := true, audioCtxInit := true } := by
      rw [startSession, if_pos hm]
    rw [hgoal]
    refine ⟨rfl, hcap, rfl, fun _ => ⟨rfl, rfl⟩, ?_⟩
    intro hmt _
    rw [hmt] at hm
    simp at hm
  · have hcf : connectOk = false := by
      rcases hfail with h | h
      · exact absurd h hm
      · exact h
    have hgoal : startSession micOk connectOk s =
        cleanup { s with
          isConnecting := true, audioCtxInit := true,
          micStreamLive := true } := by
      rw [startSession, if_neg hm, if_pos hcf]
    rw [hgoal]
    refine ⟨rfl, hcap, rfl, ?_, fun _ _ => ⟨rfl, rfl⟩⟩
    intro hmf
    exact absurd hmf hm

theorem startSession_failure_paths_witness :
    (AppState.mk false false false "" [] 0 false false false).captureStarted =
        false ∧
    (AppState.mk false false false "" [] 0 false false false).sessionOpen =
        false ∧
    ((true : Bool) = false ∨ (false : Bool) = false) ∧
    (isIdle (startSession true false
        (AppState.mk false false false "" [] 0 false false false)) = true ∧
      (startSession true false
        (AppState.mk false false false "" [] 0 false false false)).captureStarted =
          false ∧
      (startSession true false
        (AppState.mk false false false "" [] 0 false false false)).sessionOpen =
          false ∧
      ((true : Bool) = false →
        startSession true false
            (AppState.mk false false false "" [] 0 false false false) =
          cleanup { AppState.mk false false false "" [] 0 false false false with
            isConnecting := true, audioCtxInit := true } ∧
        (startSession true false
          (AppState.mk false false false "" [] 0 false false false)).micStreamLive =
            (AppState.mk false false false "" [] 0 false false false).micStreamLive) ∧
      ((true : Bool) = true → (false : Bool) = false →
        startSession true false
            (AppState.mk false false false "" [] 0 false false false) =
          cleanup { AppState.mk false false false "" [] 0 false false false with
            isConnecting := true, audioCtxInit := true,
            micStreamLive := true } ∧
        (startSession true false
          (AppState.mk false false false "" [] 0 false false false)).micStreamLive =
            true)) :=
  ⟨rfl, rfl, Or.inr rfl,
    startSession_failure_paths
      (AppState.mk false false false "" [] 0 false false false)
      true false rfl rfl (Or.inr rfl)⟩

/-- C7 counterexample: from a state in which capture is running, the
microphone stream is live, the cursor sits at 5 and the output device is
held, cleanup leaves capture running, leaves the microphone stream live,
leaves the cursor at 5 rather than resetting it (so it is not an interrupt
followed by a release), and keeps the output device: the claimed stopping of
the capture stream, cursor reset and output release do not happen. -/
theorem cleanup_keeps_capture_and_cursor :
    (cleanup (AppState.mk true true false "hi" [1, 2] 5 true true true)).captureStarted
        = true ∧
    (cleanup (AppState.mk true true false "hi" [1, 2] 5 true true true)).micStreamLive
        = true ∧
    (cleanup (AppState.mk true true false "hi" [1, 2] 5 true true true)).cursor = 5 ∧
    ¬ (cleanup (AppState.mk true true false "hi" [1, 2] 5 true true true)).cursor
        = 0 ∧
    (cleanup (AppState.mk true true false "hi" [1, 2] 5 true true true)).audioCtxInit
        = true := by
  refine ⟨rfl, rfl, rfl, by norm_num [cleanup], rfl⟩

/-- C7 amended: cleanup, from any state, closes the session reference, lowers
the Active and Connecting flags, clears the transcript and stops and clears
every active playback source, and it is idempotent; but it leaves the
capture hookup, the acquired microphone stream, the playback cursor and the
audio devices untouched: it does not stop the capture stream, does not reset
the cursor and does not release the output device. -/
theorem cleanup_behavior (s : AppState) :
    (cleanup s).sessionOpen = false ∧
    (cleanup s).isActive = false ∧
    (cleanup s).isConnecting = false ∧
    (cleanup s).transcript = "" ∧
    (cleanup s).sources = [] ∧
    (cleanup s).cursor = s.cursor ∧
    (cleanup s).captureStarted = s.captureStarted ∧
    (cleanup s).micStreamLive = s.micStreamLive ∧
    (cleanup s).audioCtxInit = s.audioCtxInit ∧
    cleanup (cleanup s) = cleanup s :=
  ⟨rfl, rfl, rfl, rfl, rfl, rfl, rfl, rfl, rfl, rfl⟩

/-! ## Event-loop model of the message handler

onmessage is an asynchronous function whose only suspension point is the
await of decodeAudioData.  The audio branch therefore splits into a
synchronous prefix executed at message arrival, which raises the cursor to
max(cursor, deviceClock) and submits the decode, and a continuation executed
when that decode completes, which starts the source at the cursor value read
at that later moment, advances the cursor by the segment duration and
registers the source.  The interrupted branch runs synchronously in its own
message: it stops and clears the started sources and zeroes the cursor, but
nothing cancels decodes already in flight.  Decode completions are delivered
by the platform in no guaranteed order.  The model below replays any such
interleaving: audioArrive is the synchronous prefix, decodeDone the resumed
continuation, interrupted the interrupt branch and sourceEnded the natural
end of a source. -/

end VoiceAssistant
